import Mathlib

/-!
Verification of the Transcuraboo transcription orchestration engine.

This file gives a shallow embedding, in Lean 4, of the core of the
Transcuraboo repository: the chunked, concurrency-bounded batch
transcription pipeline of `App.tsx` (`processFile`), the batch
transcription client of `services/geminiService.ts` (`transcribeAudio`),
and the real-time turn-segmentation logic of
`components/RealtimeTranscriber.tsx` (`startRecording`'s message handler
and `stopRecording`).

Numbers: JavaScript numbers used for times and durations are modelled as
exact rationals (`ℚ`); sample counts, chunk indices and progress
percentages are natural numbers / integers.  JavaScript string prefix
tests are modelled on the character-sequence contents of strings.
Asynchronous execution (`Promise.all` waves) is modelled by an explicit
event trace: within a wave all requests are issued before any of the
wave's results are consumed, and the loop only proceeds past
`await Promise.all` once every request of the wave has settled.
-/

namespace Transcuraboo

/-! ## Constants and data model (`App.tsx`, `types.ts`) -/
/-- `CHUNK_SIZE_SECONDS = 20` (App.tsx line 11). -/
def CHUNK_SIZE_SECONDS : ℕ := 20

/-- `CONCURRENCY_LIMIT = 10` (App.tsx line 12). -/
def CONCURRENCY_LIMIT : ℕ := 10

/-- `TranscriptionTurn` (types.ts): start/end time in seconds and text. -/
structure TranscriptionTurn where
  startTime : ℚ
  endTime : ℚ
  text : String
deriving DecidableEq, Repr

/-- `TranscriptionStatus` (types.ts). -/
inductive TranscriptionStatus where
  | QUEUED
  | PROCESSING
  | TRANSCRIBING
  | DONE
  | ERROR
deriving DecidableEq, Repr

/-- The mutable per-job state of a `TranscribedFile` (types.ts); the
`id` and `file` fields play no role in the verified properties. -/
structure TranscribedFile where
  status : TranscriptionStatus
  progress : ℤ
  transcription : List TranscriptionTurn
  error : Option String
deriving DecidableEq, Repr

/-! ## Chunk planner (App.tsx lines 41-45, 78-82) -/
/-- `chunkTotalSamples = CHUNK_SIZE_SECONDS * sampleRate` (App.tsx line 44). -/
def chunkTotalSamples (sampleRate : ℕ) : ℕ := CHUNK_SIZE_SECONDS * sampleRate

/-- `numChunks = Math.ceil(totalSamples / chunkTotalSamples)`
(App.tsx line 45), as a ceiling division on naturals. -/
def numChunks (totalSamples sampleRate : ℕ) : ℕ :=
  (totalSamples + chunkTotalSamples sampleRate - 1) / chunkTotalSamples sampleRate

/-- `audioBuffer.duration`: the source duration in seconds,
`totalSamples / sampleRate`. -/
def duration (totalSamples sampleRate : ℕ) : ℚ :=
  (totalSamples : ℚ) / (sampleRate : ℚ)

/-- Chunk start time: `chunkIndex * CHUNK_SIZE_SECONDS` (App.tsx line 80). -/
def segStart (i : ℕ) : ℚ := (i : ℚ) * (CHUNK_SIZE_SECONDS : ℚ)

/-- Chunk end time:
`Math.min((chunkIndex + 1) * CHUNK_SIZE_SECONDS, audioBuffer.duration)`
(App.tsx line 81). -/
def segEnd (totalSamples sampleRate i : ℕ) : ℚ :=
  min (((i : ℚ) + 1) * (CHUNK_SIZE_SECONDS : ℚ)) (duration totalSamples sampleRate)

/-! ## Transcription result aggregator (App.tsx lines 88-104) -/
/-- The sort order induced by the comparator
`(a, b) => a.startTime - b.startTime` (App.tsx lines 96, 104):
ascending start time. -/
def turnLE (a b : TranscriptionTurn) : Prop := a.startTime ≤ b.startTime

instance : DecidableRel turnLE :=
  fun a b => decidable_of_iff (a.startTime ≤ b.startTime) Iff.rfl

instance : IsTotal TranscriptionTurn turnLE :=
  ⟨fun a b => le_total a.startTime b.startTime⟩

instance : IsTrans TranscriptionTurn turnLE :=
  ⟨fun _ _ _ h h' => le_trans h h'⟩

/-- `fullTranscriptionTurns.filter(Boolean).sort((a, b) => a.startTime - b.startTime)`
(App.tsx lines 96 and 104): drop the undefined slots, then sort by
ascending start time.  JavaScript's `Array.prototype.sort` is stable, so
a stable insertion sort models it. -/
def aggregate (results : List (Option TranscriptionTurn)) : List TranscriptionTurn :=
  List.insertionSort turnLE (results.filterMap id)

/-- The contents of the `fullTranscriptionTurns` array (of length `n`)
once exactly the first `m` chunk slots have been recorded: slot `i`
holds `turnOf i` for `i < m` and is still undefined otherwise.  This is
the array state the pipeline reaches at every wave boundary. -/
def prefixFilled (turnOf : ℕ → TranscriptionTurn) (n m : ℕ) :
    List (Option TranscriptionTurn) :=
  (List.range n).map (fun i => if i < m then some (turnOf i) else none)

/-! ## Concurrency-bounded wave executor (App.tsx lines 52-57, 86) -/
/-- Ceiling division on naturals, for the wave count `ceil(n / K)`. -/
def ceilDiv (a b : ℕ) : ℕ := (a + b - 1) / b

/-- The wave partition produced by the loop
`for (let i = 0; i < numChunks; i += CONCURRENCY_LIMIT)` with
`chunkBatchIndices = Array.from({length: Math.min(CONCURRENCY_LIMIT, numChunks - i)}, (_, k) => i + k)`
(App.tsx lines 52-56), starting at chunk index `i`. -/
def planWaves (n i : ℕ) : List (List ℕ) :=
  if h : i < n then
    (List.range (min CONCURRENCY_LIMIT (n - i))).map (fun k => i + k)
      :: planWaves n (i + CONCURRENCY_LIMIT)
  else []
termination_by n - i
decreasing_by
  unfold CONCURRENCY_LIMIT
  omega

/-- An observable request event for chunk `i`: the chunk's request is
issued (its promise is created, App.tsx line 58), or it settles
(succeeds or fails). -/
inductive SegEvent where
  | issue (i : ℕ)
  | settle (i : ℕ)
deriving DecidableEq, Repr

def SegEvent.isIssue : SegEvent → Bool
  | .issue _ => true
  | .settle _ => false

def SegEvent.isSettle : SegEvent → Bool
  | .issue _ => false
  | .settle _ => true

/-- The event block of one wave `w`: `.map` over `chunkBatchIndices`
creates all of the wave's promises (issuing the requests in index
order), and `await Promise.all(promises)` (App.tsx line 86) only lets
the loop continue once all of them have settled, in some arbitrary
completion order `σ w` (a permutation of the wave). -/
def waveBlock (σ : List ℕ → List ℕ) (w : List ℕ) : List SegEvent :=
  w.map SegEvent.issue ++ (σ w).map SegEvent.settle

/-- The full request trace of the single-threaded await-based wave loop:
the concatenation of the wave blocks. -/
def waveTrace (σ : List ℕ → List ℕ) (waves : List (List ℕ)) : List SegEvent :=
  waves.flatMap (waveBlock σ)

/-! ## Batch transcription client (services/geminiService.ts lines 6-33) -/
/-- The outcome of the external `ai.models.generateContent` call inside
`transcribeAudio`: a response whose optional `text` field may be absent,
or a thrown value (an `Error` instance carrying a message, or anything
else). -/
inductive ClientOutcome where
  | ok (text : Option String)
  | errKnown (msg : String)
  | errUnknown
deriving DecidableEq, Repr

/-- JavaScript's `String.prototype.startsWith`, modelled on the
character contents of the strings. -/
def jsStartsWith (s p : String) : Bool := List.isPrefixOf p.data s.data

/-- JavaScript's `String.prototype.trim`, modelled on character
contents: strip leading and trailing whitespace. -/
def jsTrim (s : String) : String :=
  ⟨((s.data.dropWhile Char.isWhitespace).reverse.dropWhile Char.isWhitespace).reverse⟩

/-- `transcribeAudio` (geminiService.ts lines 6-33): on success return
`response.text ?? ''`; on a thrown error, catch it and return an
`Error:`-prefixed description instead of propagating the exception. -/
def transcribeAudio (call : ClientOutcome) : String :=
  match call with
  | .ok t => t.getD ("")
  | .errKnown msg => "Error: API call failed - " ++ msg
  | .errUnknown => "Error: An unknown error occurred during transcription."

/-- The pipeline's segment-failure test
`transcriptionPart.startsWith('Error:')` (App.tsx line 74). -/
def segmentFails (transcriptionPart : String) : Bool :=
  jsStartsWith transcriptionPart ("Error:")

/-! ## Batch pipeline controller (App.tsx lines 25-114) -/
/-- The progress written after a wave:
`5 + Math.round((chunksProcessed / numChunks) * 90)` (App.tsx line 99),
with JavaScript numbers modelled as exact rationals
(`round` is floor of `x + 1/2`, as `Math.round` on nonnegative input). -/
def progressAfter (chunksProcessed n : ℕ) : ℤ :=
  5 + round (((chunksProcessed : ℚ) / (n : ℚ)) * 90)

/-- The `TranscriptionTurn` built for a chunk (App.tsx lines 78-82). -/
def mkTurn (client : ℕ → String) (t s : ℕ) (chunkIndex : ℕ) : TranscriptionTurn :=
  { text := jsTrim (client chunkIndex)
    startTime := segStart chunkIndex
    endTime := segEnd t s chunkIndex }

/-- Recording a settled wave's turns into the `fullTranscriptionTurns`
array (App.tsx lines 88-92). -/
def setTurns (turns : List (Option TranscriptionTurn)) (idxs : List ℕ)
    (f : ℕ → TranscriptionTurn) : List (Option TranscriptionTurn) :=
  idxs.foldl (fun acc idx => acc.set idx (some (f idx))) turns

/-- The wave loop of `processFile` (App.tsx lines 52-105) from wave
start `i`, where `client idx` is the string `transcribeAudio` returned
for chunk `idx`.  It yields the sequence of job states written by
`updateFileState` from this point on, together with the list of chunk
indices whose transcription was attempted.  `σ w` is the order in which
wave `w`'s promises settle (the network completion order, an arbitrary
permutation of the wave).  In a wave where some response starts with
`Error:`, the corresponding promise rejects, and `await Promise.all`
(line 86) throws the settle-order-first such rejection — so the `catch`
block (lines 107-110) stores the message of the first failing chunk in
`σ`'s order, not necessarily the smallest-indexed one.  None of that
wave's results are recorded and no later wave runs. -/
def runWaves (client : ℕ → String) (σ : List ℕ → List ℕ) (t s n : ℕ) (i : ℕ)
    (turns : List (Option TranscriptionTurn)) (chunksProcessed : ℕ)
    (cur : TranscribedFile) : List TranscribedFile × List ℕ :=
  if h : i < n then
    let len := min CONCURRENCY_LIMIT (n - i)
    let idxs := (List.range len).map (fun k => i + k)
    match (σ idxs).find? (fun idx => segmentFails (client idx)) with
    | some bad =>
      ([{ cur with status := .ERROR, error := some (client bad), progress := 0 }], idxs)
    | none =>
      let turns' := setTurns turns idxs (mkTurn client t s)
      let cp' := chunksProcessed + len
      let cur' := { cur with progress := progressAfter cp' n,
                             transcription := aggregate turns' }
      let rest := runWaves client σ t s n (i + CONCURRENCY_LIMIT) turns' cp' cur'
      (cur' :: rest.1, idxs ++ rest.2)
  else
    ([{ cur with status := .DONE, progress := 100, transcription := aggregate turns }], [])
termination_by n - i
decreasing_by
  unfold CONCURRENCY_LIMIT
  omega

/-- `processFile` (App.tsx lines 25-114) for a source that decodes to
`totalSamples` samples at `sampleRate`, with per-wave settle order `σ`:
the whole sequence of job states, starting from the queued state created
by `handleFileChange` (lines 126-132), together with the chunk indices
attempted. -/
def processFile (client : ℕ → String) (σ : List ℕ → List ℕ) (t s : ℕ) :
    List TranscribedFile × List ℕ :=
  let j0 : TranscribedFile :=
    { status := .QUEUED, progress := 0, transcription := [], error := none }
  let j1 : TranscribedFile := { j0 with status := .PROCESSING, progress := 5 }
  let j2 : TranscribedFile := { j1 with status := .TRANSCRIBING }
  let n := numChunks t s
  let out := runWaves client σ t s n 0 (List.replicate n none) 0 j2
  (j0 :: j1 :: j2 :: out.1, out.2)

/-! ## Real-time transcriber (components/RealtimeTranscriber.tsx) -/
/-- The in-progress turn (`CurrentTurn`, RealtimeTranscriber.tsx lines
33-36). -/
structure CurrentTurn where
  startTime : ℚ
  text : String
deriving DecidableEq, Repr

/-- The state held by the `RealtimeTranscriber` component: the recording
flag and transcript state, plus the session resources held in refs.
A `Bool` handle is "held" (ref non-null) or "released" (ref null); the
audio contexts additionally record whether they are still open
(`some true`), already closed but not released (`some false`), or
released (`none`). -/
structure LiveSessionState where
  isRecording : Bool
  transcript : List TranscriptionTurn
  currentTurn : Option CurrentTurn
  stream : Bool
  scriptProcessor : Bool
  audioContext : Option Bool
  outputAudioContext : Option Bool
  outputGainNode : Bool
  session : Bool
  recordingStartTime : Option ℚ
deriving DecidableEq, Repr

/-- The `turnComplete` branch of the live session's `onmessage` callback
(RealtimeTranscriber.tsx lines 162-173), at absolute time `now` in
milliseconds (`performance.now()`): a non-whitespace accumulated turn is
finalized with `endTime = (now − (startRef ?? now)) / 1000`; the active
turn is reset in every case. -/
def handleTurnComplete (now : ℚ) (st : LiveSessionState) : LiveSessionState :=
  match st.currentTurn with
  | some prevTurn =>
    if jsTrim prevTurn.text ≠ "" then
      let elapsedTime := (now - (st.recordingStartTime.getD now)) / 1000
      { st with
        transcript := st.transcript
          ++ [{ startTime := prevTurn.startTime, endTime := elapsedTime,
                text := prevTurn.text }],
        currentTurn := none }
    else
      { st with currentTurn := none }
  | none => { st with currentTurn := none }

/-- `stopRecording` (RealtimeTranscriber.tsx lines 55-100) at absolute
time `now`: stop recording, release stream and processor, close and
release the audio contexts unless already closed, close the session
channel (best-effort), finalize a non-whitespace in-progress turn using
now minus the recording start reference (skipped when the reference is
null or 0, both falsy), and clear the start reference. -/
def stopRecording (now : ℚ) (st : LiveSessionState) : LiveSessionState :=
  let st1 : LiveSessionState := { st with isRecording := false }
  let st2 : LiveSessionState := if st1.stream then { st1 with stream := false } else st1
  let st3 : LiveSessionState := if st2.scriptProcessor then { st2 with scriptProcessor := false } else st2
  let st4 : LiveSessionState := match st3.audioContext with
    | some true => { st3 with audioContext := none }
    | _ => st3
  let st5 : LiveSessionState := match st4.outputAudioContext with
    | some true => { st4 with outputAudioContext := none, outputGainNode := false }
    | _ => st4
  let st6 : LiveSessionState := if st5.session then { st5 with session := false } else st5
  let st7 : LiveSessionState := match st6.currentTurn with
    | some prevTurn =>
      match st6.recordingStartTime with
      | some r =>
        if jsTrim prevTurn.text ≠ "" ∧ r ≠ 0 then
          { st6 with
            transcript := st6.transcript
              ++ [{ startTime := prevTurn.startTime, endTime := (now - r) / 1000,
                    text := prevTurn.text }],
            currentTurn := none }
        else
          { st6 with currentTurn := none }
      | none => { st6 with currentTurn := none }
    | none => { st6 with currentTurn := none }
  { st7 with recordingStartTime := none }

/-- The fully stopped session: every resource handle released, no active
turn, no recording-start reference, not recording — exactly the state
`stopRecording` leaves behind for a session whose contexts were released. -/
def StoppedSession (st : LiveSessionState) : Prop :=
  st.isRecording = false ∧ st.stream = false ∧ st.scriptProcessor = false ∧
  st.audioContext = none ∧ st.outputAudioContext = none ∧
  st.outputGainNode = false ∧ st.session = false ∧
  st.currentTurn = none ∧ st.recordingStartTime = none

instance (st : LiveSessionState) : Decidable (StoppedSession st) := by
  unfold StoppedSession
  infer_instance

/-! ## Lemmas and claim theorems -/

lemma chunkTotalSamples_pos {s : ℕ} (hs : 0 < s) : 0 < chunkTotalSamples s := by
  unfold chunkTotalSamples CHUNK_SIZE_SECONDS
  omega

lemma le_numChunks_mul (t s : ℕ) (hs : 0 < s) :
    t ≤ numChunks t s * chunkTotalSamples s := by
  have hc := chunkTotalSamples_pos hs
  have hdm := Nat.div_add_mod (t + chunkTotalSamples s - 1) (chunkTotalSamples s)
  have hmod := Nat.mod_lt (t + chunkTotalSamples s - 1) hc
  unfold numChunks
  rw [Nat.mul_comm]
  set q := (t + chunkTotalSamples s - 1) / chunkTotalSamples s with hq
  set r := (t + chunkTotalSamples s - 1) % chunkTotalSamples s with hr
  set m := chunkTotalSamples s * q with hm
  omega

lemma numChunks_pred_mul_lt (t s : ℕ) (hs : 0 < s) (ht : 0 < t) :
    (numChunks t s - 1) * chunkTotalSamples s < t := by
  have hc := chunkTotalSamples_pos hs
  have hdm := Nat.div_add_mod (t + chunkTotalSamples s - 1) (chunkTotalSamples s)
  have hmod := Nat.mod_lt (t + chunkTotalSamples s - 1) hc
  unfold numChunks
  rw [Nat.sub_mul, one_mul, Nat.mul_comm]
  set q := (t + chunkTotalSamples s - 1) / chunkTotalSamples s with hq
  set r := (t + chunkTotalSamples s - 1) % chunkTotalSamples s with hr
  set m := chunkTotalSamples s * q with hm
  omega

lemma numChunks_pos (t s : ℕ) (hs : 0 < s) (ht : 0 < t) :
    0 < numChunks t s := by
  have hc := chunkTotalSamples_pos hs
  unfold numChunks
  exact Nat.div_pos (by omega) hc

lemma duration_le_numChunks_mul (t s : ℕ) (hs : 0 < s) :
    duration t s ≤ (numChunks t s : ℚ) * (CHUNK_SIZE_SECONDS : ℚ) := by
  have hs' : (0 : ℚ) < (s : ℚ) := by exact_mod_cast hs
  have h := le_numChunks_mul t s hs
  unfold duration
  rw [div_le_iff₀ hs']
  calc (t : ℚ) ≤ ((numChunks t s * chunkTotalSamples s : ℕ) : ℚ) := by exact_mod_cast h
    _ = (numChunks t s : ℚ) * (CHUNK_SIZE_SECONDS : ℚ) * (s : ℚ) := by
        unfold chunkTotalSamples
        push_cast
        ring

lemma numChunks_pred_mul_lt_duration (t s : ℕ) (hs : 0 < s) (ht : 0 < t) :
    ((numChunks t s : ℚ) - 1) * (CHUNK_SIZE_SECONDS : ℚ) < duration t s := by
  have hs' : (0 : ℚ) < (s : ℚ) := by exact_mod_cast hs
  have hn := numChunks_pos t s hs ht
  have h := numChunks_pred_mul_lt t s hs ht
  unfold duration
  rw [lt_div_iff₀ hs']
  have hcast : ((numChunks t s : ℚ) - 1) = ((numChunks t s - 1 : ℕ) : ℚ) := by
    have : (1 : ℕ) ≤ numChunks t s := hn
    push_cast [Nat.cast_sub this]
    ring
  rw [hcast]
  calc ((numChunks t s - 1 : ℕ) : ℚ) * (CHUNK_SIZE_SECONDS : ℚ) * (s : ℚ)
      = (((numChunks t s - 1) * chunkTotalSamples s : ℕ) : ℚ) := by
        unfold chunkTotalSamples
        push_cast
        ring
    _ < (t : ℚ) := by exact_mod_cast h

/-- C1: for an audio source with `0 < sampleRate` and `0 < totalSamples`,
the planner produces `ceil(totalSamples / (20 * sampleRate))` chunks whose
time ranges `[i*20, min((i+1)*20, D))` start at 0, are contiguous,
non-overlapping, nonempty, cover `[0, D)`, and whose last end time is
exactly the duration `D`, even when `D` is not a multiple of 20. -/
theorem C1_chunk_planning_coverage (t s : ℕ) (hs : 0 < s) (ht : 0 < t) :
    ((numChunks t s : ℤ) = ⌈(t : ℚ) / (chunkTotalSamples s : ℚ)⌉) ∧
    segStart 0 = 0 ∧
    (∀ i : ℕ, i + 1 < numChunks t s → segEnd t s i = segStart (i + 1)) ∧
    (∀ i : ℕ, i < numChunks t s → segStart i < segEnd t s i) ∧
    (∀ i j : ℕ, i < j → j < numChunks t s → segEnd t s i ≤ segStart j) ∧
    (∀ x : ℚ, 0 ≤ x → x < duration t s →
      ∃ i : ℕ, i < numChunks t s ∧ segStart i ≤ x ∧ x < segEnd t s i) ∧
    segEnd t s (numChunks t s - 1) = duration t s := by
  have hs' : (0 : ℚ) < (s : ℚ) := by exact_mod_cast hs
  have hn := numChunks_pos t s hs ht
  have hDle := duration_le_numChunks_mul t s hs
  have hDgt := numChunks_pred_mul_lt_duration t s hs ht
  have hCS : (CHUNK_SIZE_SECONDS : ℚ) = 20 := by norm_num [CHUNK_SIZE_SECONDS]
  refine ⟨?_, ?_, ?_, ?_, ?_, ?_, ?_⟩
  · -- count = ceiling
    symm
    rw [Int.ceil_eq_iff]
    constructor
    · have h := numChunks_pred_mul_lt t s hs ht
      have hc := chunkTotalSamples_pos hs
      have hc' : (0 : ℚ) < (chunkTotalSamples s : ℚ) := by exact_mod_cast hc
      rw [show ((numChunks t s : ℤ) : ℚ) = (numChunks t s : ℚ) by push_cast; ring]
      rw [lt_div_iff₀ hc']
      have hcast : ((numChunks t s - 1 : ℕ) : ℚ) = (numChunks t s : ℚ) - 1 := by
        have h1 : (1 : ℕ) ≤ numChunks t s := hn
        push_cast [Nat.cast_sub h1]
        ring
      have h' : (((numChunks t s - 1) * chunkTotalSamples s : ℕ) : ℚ) < (t : ℚ) := by
        exact_mod_cast h
      push_cast at h'
      rw [hcast] at h'
      exact h'
    · have h := le_numChunks_mul t s hs
      have hc := chunkTotalSamples_pos hs
      have hc' : (0 : ℚ) < (chunkTotalSamples s : ℚ) := by exact_mod_cast hc
      rw [div_le_iff₀ hc']
      rw [show ((numChunks t s : ℤ) : ℚ) = (numChunks t s : ℚ) by push_cast; ring]
      exact_mod_cast h
  · -- first chunk starts at 0
    simp [segStart]
  · -- contiguity
    intro i hi
    unfold segEnd segStart
    rw [min_eq_left]
    · push_cast; ring
    · have h1 : (i : ℚ) + 1 ≤ (numChunks t s : ℚ) - 1 := by
        have : (i : ℕ) + 1 ≤ numChunks t s - 1 := by omega
        have h2 : ((i + 1 : ℕ) : ℚ) ≤ ((numChunks t s - 1 : ℕ) : ℚ) := by exact_mod_cast this
        have h3 : ((numChunks t s - 1 : ℕ) : ℚ) = (numChunks t s : ℚ) - 1 := by
          have h4 : (1 : ℕ) ≤ numChunks t s := hn
          push_cast [Nat.cast_sub h4]
          ring
        push_cast at h2
        linarith [h2, h3.symm.le]
      have h2 : ((i : ℚ) + 1) * (CHUNK_SIZE_SECONDS : ℚ)
          ≤ ((numChunks t s : ℚ) - 1) * (CHUNK_SIZE_SECONDS : ℚ) := by
        rw [hCS]
        nlinarith [h1]
      linarith [h2, hDgt]
  · -- each chunk is nonempty
    intro i hi
    unfold segEnd segStart
    rw [lt_min_iff]
    constructor
    · rw [hCS]
      nlinarith [Nat.cast_nonneg (α := ℚ) i]
    · have h1 : (i : ℚ) ≤ (numChunks t s : ℚ) - 1 := by
        have : i ≤ numChunks t s - 1 := by omega
        have h2 : ((i : ℕ) : ℚ) ≤ ((numChunks t s - 1 : ℕ) : ℚ) := by exact_mod_cast this
        have h3 : ((numChunks t s - 1 : ℕ) : ℚ) = (numChunks t s : ℚ) - 1 := by
          have h4 : (1 : ℕ) ≤ numChunks t s := hn
          push_cast [Nat.cast_sub h4]
          ring
        linarith [h2, h3.le]
      have h2 : (i : ℚ) * (CHUNK_SIZE_SECONDS : ℚ)
          ≤ ((numChunks t s : ℚ) - 1) * (CHUNK_SIZE_SECONDS : ℚ) := by
        rw [hCS]
        nlinarith [h1]
      linarith [h2, hDgt]
  · -- non-overlap
    intro i j hij hj
    unfold segEnd segStart
    refine le_trans (min_le_left _ _) ?_
    have : (i : ℚ) + 1 ≤ (j : ℚ) := by exact_mod_cast hij
    rw [hCS]
    nlinarith [this]
  · -- coverage of [0, D)
    intro x hx hxD
    have h20 : (0 : ℚ) < 20 := by norm_num
    set i : ℕ := (⌊x / 20⌋).toNat with hi
    have hfl : (0 : ℤ) ≤ ⌊x / 20⌋ := Int.floor_nonneg.2 (by positivity)
    have hic : ((i : ℕ) : ℚ) = ((⌊x / 20⌋ : ℤ) : ℚ) := by
      rw [hi]
      exact_mod_cast congrArg (fun z : ℤ => (z : ℚ)) (Int.toNat_of_nonneg hfl)
    have hlow : (i : ℚ) ≤ x / 20 := by
      rw [hic]; exact Int.floor_le _
    have hhigh : x / 20 < (i : ℚ) + 1 := by
      rw [hic]
      exact_mod_cast Int.lt_floor_add_one (x / 20)
    have hlow' : (i : ℚ) * 20 ≤ x := by
      rw [← le_div_iff₀ h20]; exact hlow
    have hhigh' : x < ((i : ℚ) + 1) * 20 := by
      rw [← div_lt_iff₀ h20]; exact hhigh
    refine ⟨i, ?_, ?_, ?_⟩
    · -- i < numChunks
      by_contra hcon
      push_neg at hcon
      have h1 : (numChunks t s : ℚ) ≤ (i : ℚ) := by exact_mod_cast hcon
      have h2 : duration t s ≤ (i : ℚ) * 20 := by
        rw [hCS] at hDle
        nlinarith [hDle, h1]
      linarith [hlow', hxD, h2]
    · unfold segStart; rw [hCS]; exact hlow'
    · unfold segEnd
      rw [lt_min_iff, hCS]
      exact ⟨hhigh', hxD⟩
  · -- last end time equals the duration
    unfold segEnd
    rw [min_eq_right]
    have h3 : ((numChunks t s - 1 : ℕ) : ℚ) = (numChunks t s : ℚ) - 1 := by
      have h4 : (1 : ℕ) ≤ numChunks t s := hn
      push_cast [Nat.cast_sub h4]
      ring
    rw [h3]
    have : (numChunks t s : ℚ) - 1 + 1 = (numChunks t s : ℚ) := by ring
    rw [this]
    exact hDle

/-- Witness for C1, at a 47-sample source with sample rate 1
(duration 47 s, 3 chunks `[0,20) [20,40) [40,47)`). -/
theorem C1_chunk_planning_coverage_witness :
    0 < 1 ∧ 0 < 47 ∧
    (((numChunks 47 1 : ℤ) = ⌈(47 : ℚ) / (chunkTotalSamples 1 : ℚ)⌉) ∧
    segStart 0 = 0 ∧
    (∀ i : ℕ, i + 1 < numChunks 47 1 → segEnd 47 1 i = segStart (i + 1)) ∧
    (∀ i : ℕ, i < numChunks 47 1 → segStart i < segEnd 47 1 i) ∧
    (∀ i j : ℕ, i < j → j < numChunks 47 1 → segEnd 47 1 i ≤ segStart j) ∧
    (∀ x : ℚ, 0 ≤ x → x < duration 47 1 →
      ∃ i : ℕ, i < numChunks 47 1 ∧ segStart i ≤ x ∧ x < segEnd 47 1 i) ∧
    segEnd 47 1 (numChunks 47 1 - 1) = duration 47 1) :=
  ⟨Nat.one_pos, by omega, C1_chunk_planning_coverage 47 1 Nat.one_pos (by omega)⟩

lemma filterMap_ite_of_forall_lt (turnOf : ℕ → TranscriptionTurn) (m : ℕ) :
    ∀ l : List ℕ, (∀ i ∈ l, i < m) →
      l.filterMap (fun i => if i < m then some (turnOf i) else none) = l.map turnOf := by
  intro l hl
  induction l with
  | nil => rfl
  | cons a l ih =>
    have ha : a < m := hl a (List.mem_cons_self a l)
    rw [List.filterMap_cons, List.map_cons]
    simp only [if_pos ha]
    rw [ih (fun i hi => hl i (List.mem_cons_of_mem a hi))]

lemma filterMap_prefixFilled (turnOf : ℕ → TranscriptionTurn) :
    ∀ n m : ℕ, m ≤ n →
      (prefixFilled turnOf n m).filterMap id = (List.range m).map turnOf := by
  intro n
  induction n with
  | zero =>
    intro m hm
    interval_cases m
    rfl
  | succ n ih =>
    intro m hm
    have key : ∀ k, (prefixFilled turnOf k m).filterMap id
        = (List.range k).filterMap (fun i => if i < m then some (turnOf i) else none) := by
      intro k
      unfold prefixFilled
      rw [List.filterMap_map]
      rfl
    rw [key, List.range_succ, List.filterMap_append]
    rcases Nat.lt_or_ge m (n + 1) with hmn | hmn
    · have hmn' : m ≤ n := by omega
      have h2 : List.filterMap (fun i => if i < m then some (turnOf i) else none) [n] = [] := by
        simp [Nat.not_lt.2 hmn']
      rw [h2, List.append_nil, ← key n, ih m hmn']
    · have hm1 : m = n + 1 := by omega
      subst hm1
      rw [filterMap_ite_of_forall_lt turnOf (n + 1) (List.range n)
        (fun i hi => by have := List.mem_range.1 hi; omega)]
      have h2 : List.filterMap (fun i => if i < n + 1 then some (turnOf i) else none) [n]
          = [turnOf n] := by simp
      rw [h2, List.range_succ, List.map_append]
      rfl

lemma sorted_map_range_of_mono (turnOf : ℕ → TranscriptionTurn) (m n : ℕ)
    (hmn : m ≤ n)
    (hmono : ∀ j, j < n → ∀ i, i < j → (turnOf i).startTime ≤ (turnOf j).startTime) :
    List.Sorted turnLE ((List.range m).map turnOf) := by
  rw [List.Sorted, List.pairwise_map]
  refine (List.pairwise_lt_range m).imp_of_mem ?_
  intro i j hi hj hij
  exact hmono j (by have := List.mem_range.1 hj; omega) i hij

/-- C2, the half that survives: the aggregate is the defined subset of
the results, sorted by ascending start time. -/
lemma aggregate_sorted_perm (results : List (Option TranscriptionTurn)) :
    List.Sorted turnLE (aggregate results) ∧
      List.Perm (aggregate results) (results.filterMap id) :=
  ⟨List.sorted_insertionSort turnLE _, List.perm_insertionSort turnLE _⟩

lemma aggregate_prefixFilled (turnOf : ℕ → TranscriptionTurn) (n m : ℕ)
    (hmn : m ≤ n)
    (hmono : ∀ j, j < n → ∀ i, i < j → (turnOf i).startTime ≤ (turnOf j).startTime) :
    aggregate (prefixFilled turnOf n m) = (List.range m).map turnOf := by
  unfold aggregate
  rw [filterMap_prefixFilled turnOf n m hmn]
  exact (sorted_map_range_of_mono turnOf m n hmn hmono).insertionSort_eq

/-- C2 counterexample: the claim's re-aggregation clause fails for an
arbitrary superset of results.  With only chunk 1's result present the
aggregate is `[turn 1]`; adding chunk 0's result produces
`[turn 0, turn 1]`, so the previously placed turn moves from position 0
to position 1 and the old transcript is not a prefix of the new one. -/
theorem C2_order_restoration_counterexample :
    (∀ i, i < 2 →
      ([none, some ⟨20, 40, "b"⟩] : List (Option TranscriptionTurn))[i]? = some none ∨
      ([none, some ⟨20, 40, "b"⟩] : List (Option TranscriptionTurn))[i]?
        = ([some ⟨0, 20, "a"⟩, some ⟨20, 40, "b"⟩] : List (Option TranscriptionTurn))[i]?) ∧
    aggregate [none, some ⟨20, 40, "b"⟩] = [⟨20, 40, "b"⟩] ∧
    aggregate [some ⟨0, 20, "a"⟩, some ⟨20, 40, "b"⟩] = [⟨0, 20, "a"⟩, ⟨20, 40, "b"⟩] ∧
    ¬ (aggregate [none, some ⟨20, 40, "b"⟩]
        <+: aggregate [some ⟨0, 20, "a"⟩, some ⟨20, 40, "b"⟩]) := by
  refine ⟨?_, ?_, ?_, ?_⟩ <;> decide

/-- C2 (amended): for every set of segment results, the aggregated
transcript is the subset of segments with a defined result sorted by
`startTime` ascending; and re-aggregating with a superset of results is
a prefix-consistent, monotone extension provided the defined results
always form a downward-closed (prefix) set of chunk indices — which is
exactly what the wave pipeline produces, since a chunk's start time
grows with its index and waves complete in index order. -/
theorem C2_order_restoration_amended :
    (∀ results : List (Option TranscriptionTurn),
      List.Sorted turnLE (aggregate results) ∧
        List.Perm (aggregate results) (results.filterMap id)) ∧
    (∀ (turnOf : ℕ → TranscriptionTurn) (n m m' : ℕ),
      (∀ j, j < n → ∀ i, i < j → (turnOf i).startTime ≤ (turnOf j).startTime) →
      m ≤ m' → m' ≤ n →
      aggregate (prefixFilled turnOf n m) = (List.range m).map turnOf ∧
        aggregate (prefixFilled turnOf n m) <+: aggregate (prefixFilled turnOf n m')) := by
  refine ⟨aggregate_sorted_perm, ?_⟩
  intro turnOf n m m' hmono hmm' hm'n
  have hmn : m ≤ n := le_trans hmm' hm'n
  rw [aggregate_prefixFilled turnOf n m hmn hmono,
    aggregate_prefixFilled turnOf n m' hm'n hmono]
  refine ⟨rfl, ?_⟩
  have htake : List.range m = List.take m (List.range m') := by
    rw [List.take_range]
    congr 1
    omega
  rw [htake, List.map_take]
  exact List.take_prefix _ _

/-- Witness for C2 (amended), at a two-element result list and at the
pipeline's own turn family with `n = 3`, `m = 1`, `m' = 2`. -/
theorem C2_order_restoration_amended_witness :
    (List.Sorted turnLE (aggregate [some ⟨20, 40, "b"⟩, some ⟨0, 20, "a"⟩]) ∧
      List.Perm (aggregate [some ⟨20, 40, "b"⟩, some ⟨0, 20, "a"⟩])
        (([some ⟨20, 40, "b"⟩, some ⟨0, 20, "a"⟩] :
            List (Option TranscriptionTurn)).filterMap id)) ∧
    ((∀ j, j < 3 → ∀ i, i < j →
        ((fun k : ℕ => (⟨if k = 0 then 0 else if k = 1 then 20 else 40, 60, ""⟩ :
            TranscriptionTurn)) i).startTime
          ≤ ((fun k : ℕ => (⟨if k = 0 then 0 else if k = 1 then 20 else 40, 60, ""⟩ :
            TranscriptionTurn)) j).startTime) ∧
      (1 : ℕ) ≤ 2 ∧ (2 : ℕ) ≤ 3 ∧
      (aggregate (prefixFilled
            (fun k : ℕ => ⟨if k = 0 then 0 else if k = 1 then 20 else 40, 60, ""⟩) 3 1)
          = (List.range 1).map
            (fun k : ℕ => ⟨if k = 0 then 0 else if k = 1 then 20 else 40, 60, ""⟩) ∧
        aggregate (prefixFilled
            (fun k : ℕ => ⟨if k = 0 then 0 else if k = 1 then 20 else 40, 60, ""⟩) 3 1)
          <+: aggregate (prefixFilled
            (fun k : ℕ => ⟨if k = 0 then 0 else if k = 1 then 20 else 40, 60, ""⟩) 3 2))) :=
  ⟨C2_order_restoration_amended.1 [some ⟨20, 40, "b"⟩, some ⟨0, 20, "a"⟩],
    by decide, by decide, by decide,
    C2_order_restoration_amended.2
      (fun k : ℕ => ⟨if k = 0 then 0 else if k = 1 then 20 else 40, 60, ""⟩) 3 1 2
      (by decide) (by decide) (by decide)⟩

lemma planWaves_length (n i : ℕ) :
    (planWaves n i).length = ceilDiv (n - i) CONCURRENCY_LIMIT := by
  rw [planWaves]
  split
  · next h =>
    rw [List.length_cons, planWaves_length n (i + CONCURRENCY_LIMIT)]
    unfold ceilDiv CONCURRENCY_LIMIT
    omega
  · next h =>
    unfold ceilDiv CONCURRENCY_LIMIT
    simp only [List.length_nil]
    omega
termination_by n - i
decreasing_by
  unfold CONCURRENCY_LIMIT
  omega

lemma planWaves_wave_length (n : ℕ) :
    ∀ i, ∀ w ∈ planWaves n i, w.length ≤ CONCURRENCY_LIMIT := by
  intro i w hw
  rw [planWaves] at hw
  split at hw
  · next h =>
    rcases List.mem_cons.1 hw with hw1 | hw2
    · subst hw1
      rw [List.length_map, List.length_range]
      exact min_le_left _ _
    · exact planWaves_wave_length n (i + CONCURRENCY_LIMIT) w hw2
  · next h => simp at hw
termination_by i => n - i
decreasing_by
  unfold CONCURRENCY_LIMIT
  omega

lemma planWaves_flatten (n i : ℕ) :
    (planWaves n i).flatMap (fun w => w) = List.range' i (n - i) := by
  rw [planWaves]
  split
  · next h =>
    rw [List.flatMap_cons, planWaves_flatten n (i + CONCURRENCY_LIMIT)]
    have hwave : (List.range (min CONCURRENCY_LIMIT (n - i))).map (fun k => i + k)
        = List.range' i (min CONCURRENCY_LIMIT (n - i)) := by
      rw [List.range'_eq_map_range]
    rw [hwave]
    rcases le_or_lt (n - i) CONCURRENCY_LIMIT with hle | hlt
    · have h1 : min CONCURRENCY_LIMIT (n - i) = n - i := min_eq_right hle
      have h2 : n - (i + CONCURRENCY_LIMIT) = 0 := by omega
      rw [h1, h2]
      simp
    · have h1 : min CONCURRENCY_LIMIT (n - i) = CONCURRENCY_LIMIT := min_eq_left (by omega)
      rw [h1]
      have happ := List.range'_append i CONCURRENCY_LIMIT (n - (i + CONCURRENCY_LIMIT)) 1
      simp only [Nat.one_mul] at happ
      rw [happ]
      congr 1
      omega
  · next h =>
    have : n - i = 0 := by omega
    rw [this]
    rfl
termination_by n - i
decreasing_by
  unfold CONCURRENCY_LIMIT
  omega

lemma countP_isIssue_issues (w : List ℕ) :
    (w.map SegEvent.issue).countP SegEvent.isIssue = w.length := by
  rw [List.countP_map]
  simp [Function.comp, SegEvent.isIssue]

lemma countP_isIssue_settles (w : List ℕ) :
    (w.map SegEvent.settle).countP SegEvent.isIssue = 0 := by
  rw [List.countP_map]
  simp [Function.comp, SegEvent.isIssue]

lemma countP_isSettle_settles (w : List ℕ) :
    (w.map SegEvent.settle).countP SegEvent.isSettle = w.length := by
  rw [List.countP_map]
  simp [Function.comp, SegEvent.isSettle]

lemma prefix_append_cases {α : Type} {p l₁ l₂ : List α} (h : p <+: l₁ ++ l₂) :
    p <+: l₁ ∨ ∃ q, q <+: l₂ ∧ p = l₁ ++ q := by
  rw [List.prefix_iff_eq_take] at h
  rw [List.take_append_eq_append_take] at h
  rcases le_or_lt p.length l₁.length with hl | hl
  · left
    have h2 : p.length - l₁.length = 0 := by omega
    rw [h2] at h
    simp only [List.take_zero, List.append_nil] at h
    rw [h]
    exact List.take_prefix _ _
  · right
    refine ⟨List.take (p.length - l₁.length) l₂, List.take_prefix _ _, ?_⟩
    rw [List.take_of_length_le (by omega)] at h
    exact h

lemma waveBlock_prefix_bound (σ : List ℕ → List ℕ) (w : List ℕ)
    (hlen : w.length ≤ CONCURRENCY_LIMIT) :
    ∀ p, p <+: waveBlock σ w →
      p.countP SegEvent.isIssue ≤ p.countP SegEvent.isSettle + CONCURRENCY_LIMIT := by
  intro p hp
  rcases prefix_append_cases hp with h1 | ⟨q, hq, rfl⟩
  · have hle : p.countP SegEvent.isIssue ≤ p.length := List.countP_le_length _
    have hlen2 : p.length ≤ w.length := by
      have := h1.length_le
      rwa [List.length_map] at this
    omega
  · rw [List.countP_append, List.countP_append]
    rw [countP_isIssue_issues]
    have hq0 : q.countP SegEvent.isIssue = 0 := by
      rw [List.countP_eq_zero]
      intro a ha
      have hmem := hq.sublist.mem ha
      rcases List.mem_map.1 hmem with ⟨b, _, rfl⟩
      simp [SegEvent.isIssue]
    omega

lemma waveTrace_outstanding_bound (σ : List ℕ → List ℕ) :
    ∀ waves : List (List ℕ),
      (∀ w ∈ waves, List.Perm (σ w) w) →
      (∀ w ∈ waves, w.length ≤ CONCURRENCY_LIMIT) →
      ∀ p, p <+: waveTrace σ waves →
        p.countP SegEvent.isIssue ≤ p.countP SegEvent.isSettle + CONCURRENCY_LIMIT := by
  intro waves
  induction waves with
  | nil =>
    intro _ _ p hp
    have : p = [] := List.prefix_nil.1 hp
    subst this
    simp [CONCURRENCY_LIMIT]
  | cons w ws ih =>
    intro hperm hlen p hp
    rw [waveTrace, List.flatMap_cons] at hp
    rcases prefix_append_cases hp with h1 | ⟨q, hq, rfl⟩
    · exact waveBlock_prefix_bound σ w (hlen w (List.mem_cons_self w ws)) p h1
    · rw [List.countP_append, List.countP_append]
      have hblocki : (waveBlock σ w).countP SegEvent.isIssue = w.length := by
        rw [waveBlock, List.countP_append, countP_isIssue_issues, countP_isIssue_settles]
        omega
      have hblocks : (waveBlock σ w).countP SegEvent.isSettle = w.length := by
        rw [waveBlock, List.countP_append, countP_isSettle_settles]
        have : (w.map SegEvent.issue).countP SegEvent.isSettle = 0 := by
          rw [List.countP_map]
          simp [Function.comp, SegEvent.isSettle]
        rw [this]
        rw [(hperm w (List.mem_cons_self w ws)).length_eq]
        omega
      have hqbound := ih (fun v hv => hperm v (List.mem_cons_of_mem w hv))
        (fun v hv => hlen v (List.mem_cons_of_mem w hv)) q hq
      omega

/-- C3: with `N = n` chunks and concurrency limit `K = CONCURRENCY_LIMIT = 10`,
the loop partitions the chunk indices into `ceil(N/K)` waves of at most
`K` items that together cover exactly `0, …, N-1` in order; along any
completion order `σ` of each wave, every trace prefix has at most `K`
requests outstanding (issued but not settled), and for every wave
boundary `j` the trace splits so that all settle events of waves
`0, …, j` occur before all issue events of the later waves. -/
theorem C3_wave_barrier (n : ℕ) (σ : List ℕ → List ℕ)
    (hσ : ∀ w ∈ planWaves n 0, List.Perm (σ w) w) :
    (planWaves n 0).length = ceilDiv n CONCURRENCY_LIMIT ∧
    (∀ w ∈ planWaves n 0, w.length ≤ CONCURRENCY_LIMIT) ∧
    ((planWaves n 0).flatMap (fun w => w) = List.range n) ∧
    (∀ p, p <+: waveTrace σ (planWaves n 0) →
      p.countP SegEvent.isIssue ≤ p.countP SegEvent.isSettle + CONCURRENCY_LIMIT) ∧
    (∀ j, j + 1 < (planWaves n 0).length →
      (waveTrace σ (planWaves n 0)
        = waveTrace σ ((planWaves n 0).take (j + 1))
          ++ waveTrace σ ((planWaves n 0).drop (j + 1))) ∧
      (∀ w ∈ (planWaves n 0).take (j + 1), ∀ a ∈ w,
        SegEvent.settle a ∈ waveTrace σ ((planWaves n 0).take (j + 1))) ∧
      (∀ w ∈ (planWaves n 0).drop (j + 1), ∀ a ∈ w,
        SegEvent.issue a ∈ waveTrace σ ((planWaves n 0).drop (j + 1)))) := by
  refine ⟨?_, planWaves_wave_length n 0, ?_, ?_, ?_⟩
  · rw [planWaves_length, Nat.sub_zero]
  · rw [planWaves_flatten, Nat.sub_zero, List.range_eq_range']
  · exact waveTrace_outstanding_bound σ (planWaves n 0) hσ (planWaves_wave_length n 0)
  · intro j hj
    refine ⟨?_, ?_, ?_⟩
    · conv_lhs => rw [← List.take_append_drop (j + 1) (planWaves n 0)]
      rw [waveTrace, waveTrace, waveTrace, List.flatMap_append]
    · intro w hw a ha
      rw [waveTrace, List.mem_flatMap]
      refine ⟨w, hw, ?_⟩
      rw [waveBlock, List.mem_append]
      right
      rw [List.mem_map]
      have hmem : a ∈ σ w :=
        ((hσ w (List.mem_of_mem_take hw)).mem_iff).2 ha
      exact ⟨a, hmem, rfl⟩
    · intro w hw a ha
      rw [waveTrace, List.mem_flatMap]
      refine ⟨w, hw, ?_⟩
      rw [waveBlock, List.mem_append]
      left
      rw [List.mem_map]
      exact ⟨a, ha, rfl⟩

/-- Witness for C3, at 13 chunks (two waves, `[0..9]` and `[10,11,12]`)
with each wave settling in reverse order. -/
theorem C3_wave_barrier_witness :
    (planWaves 13 0).length = ceilDiv 13 CONCURRENCY_LIMIT ∧
    (∀ w ∈ planWaves 13 0, w.length ≤ CONCURRENCY_LIMIT) ∧
    ((planWaves 13 0).flatMap (fun w => w) = List.range 13) ∧
    (∀ p, p <+: waveTrace List.reverse (planWaves 13 0) →
      p.countP SegEvent.isIssue ≤ p.countP SegEvent.isSettle + CONCURRENCY_LIMIT) ∧
    (∀ j, j + 1 < (planWaves 13 0).length →
      (waveTrace List.reverse (planWaves 13 0)
        = waveTrace List.reverse ((planWaves 13 0).take (j + 1))
          ++ waveTrace List.reverse ((planWaves 13 0).drop (j + 1))) ∧
      (∀ w ∈ (planWaves 13 0).take (j + 1), ∀ a ∈ w,
        SegEvent.settle a ∈ waveTrace List.reverse ((planWaves 13 0).take (j + 1))) ∧
      (∀ w ∈ (planWaves 13 0).drop (j + 1), ∀ a ∈ w,
        SegEvent.issue a ∈ waveTrace List.reverse ((planWaves 13 0).drop (j + 1)))) :=
  C3_wave_barrier 13 List.reverse (fun w _ => List.reverse_perm w)

lemma runWaves_stop (client : ℕ → String) (σ : List ℕ → List ℕ) (t s n i : ℕ)
    (turns : List (Option TranscriptionTurn)) (cp : ℕ) (cur : TranscribedFile)
    (h : ¬ i < n) :
    runWaves client σ t s n i turns cp cur
      = ([{ cur with
              status := .DONE, progress := 100,
              transcription := aggregate turns }], []) := by
  rw [runWaves, dif_neg h]

lemma runWaves_fail_step (client : ℕ → String) (σ : List ℕ → List ℕ) (t s n i : ℕ)
    (turns : List (Option TranscriptionTurn)) (cp : ℕ) (cur : TranscribedFile)
    (bad : ℕ) (h : i < n)
    (hfind : (σ ((List.range (min CONCURRENCY_LIMIT (n - i))).map (fun k => i + k))).find?
        (fun idx => segmentFails (client idx)) = some bad) :
    runWaves client σ t s n i turns cp cur
      = ([{ cur with status := .ERROR, error := some (client bad), progress := 0 }],
         (List.range (min CONCURRENCY_LIMIT (n - i))).map (fun k => i + k)) := by
  rw [runWaves, dif_pos h]
  simp only [hfind]

lemma runWaves_succ_step (client : ℕ → String) (σ : List ℕ → List ℕ) (t s n i : ℕ)
    (turns : List (Option TranscriptionTurn)) (cp : ℕ) (cur : TranscribedFile)
    (h : i < n)
    (hfind : (σ ((List.range (min CONCURRENCY_LIMIT (n - i))).map (fun k => i + k))).find?
        (fun idx => segmentFails (client idx)) = none) :
    runWaves client σ t s n i turns cp cur
      = ({ cur with
            progress := progressAfter (cp + min CONCURRENCY_LIMIT (n - i)) n,
            transcription := aggregate (setTurns turns
              ((List.range (min CONCURRENCY_LIMIT (n - i))).map (fun k => i + k))
              (mkTurn client t s)) }
          :: (runWaves client σ t s n (i + CONCURRENCY_LIMIT)
              (setTurns turns
                ((List.range (min CONCURRENCY_LIMIT (n - i))).map (fun k => i + k))
                (mkTurn client t s))
              (cp + min CONCURRENCY_LIMIT (n - i))
              { cur with
                progress := progressAfter (cp + min CONCURRENCY_LIMIT (n - i)) n,
                transcription := aggregate (setTurns turns
                  ((List.range (min CONCURRENCY_LIMIT (n - i))).map (fun k => i + k))
                  (mkTurn client t s)) }).1,
         ((List.range (min CONCURRENCY_LIMIT (n - i))).map (fun k => i + k))
          ++ (runWaves client σ t s n (i + CONCURRENCY_LIMIT)
              (setTurns turns
                ((List.range (min CONCURRENCY_LIMIT (n - i))).map (fun k => i + k))
                (mkTurn client t s))
              (cp + min CONCURRENCY_LIMIT (n - i))
              { cur with
                progress := progressAfter (cp + min CONCURRENCY_LIMIT (n - i)) n,
                transcription := aggregate (setTurns turns
                  ((List.range (min CONCURRENCY_LIMIT (n - i))).map (fun k => i + k))
                  (mkTurn client t s)) }).2) := by
  rw [runWaves, dif_pos h]
  simp only [hfind]

lemma runWaves_fst_ne_nil (client : ℕ → String) (σ : List ℕ → List ℕ) (t s n i : ℕ)
    (turns : List (Option TranscriptionTurn)) (cp : ℕ) (cur : TranscribedFile) :
    (runWaves client σ t s n i turns cp cur).1 ≠ [] := by
  by_cases h : i < n
  · cases hfind : (σ ((List.range (min CONCURRENCY_LIMIT (n - i))).map (fun k => i + k))).find?
        (fun idx => segmentFails (client idx)) with
    | none =>
      rw [runWaves_succ_step client σ t s n i turns cp cur h hfind]
      simp
    | some bad =>
      rw [runWaves_fail_step client σ t s n i turns cp cur bad h hfind]
      simp
  · rw [runWaves_stop client σ t s n i turns cp cur h]
    simp

lemma find?_wave_none (client : ℕ → String) (σ : List ℕ → List ℕ) (i len : ℕ)
    (hσ : ∀ w, List.Perm (σ w) w)
    (hsucc : ∀ k, i ≤ k → k < i + len → segmentFails (client k) = false) :
    (σ ((List.range len).map (fun k => i + k))).find?
      (fun idx => segmentFails (client idx)) = none := by
  rw [List.find?_eq_none]
  intro x hx
  have hx2 : x ∈ (List.range len).map (fun k => i + k) := ((hσ _).mem_iff).1 hx
  rcases List.mem_map.1 hx2 with ⟨k, hk, rfl⟩
  have := List.mem_range.1 hk
  simp [hsucc (i + k) (by omega) (by omega)]

lemma find?_perm_fail (p : ℕ → Bool) {l l2 : List ℕ} (hperm : List.Perm l2 l)
    {j : ℕ} (hj : j ∈ l) (hpj : p j = true) :
    ∃ bad, l2.find? p = some bad ∧ bad ∈ l ∧ p bad = true := by
  cases hfind : l2.find? p with
  | none =>
    exact absurd hpj (List.find?_eq_none.1 hfind j ((hperm.mem_iff).2 hj))
  | some bad =>
    exact ⟨bad, rfl, (hperm.mem_iff).1 (List.mem_of_find?_eq_some hfind),
      List.find?_some hfind⟩

lemma prefixFilled_length (f : ℕ → TranscriptionTurn) (n m : ℕ) :
    (prefixFilled f n m).length = n := by
  unfold prefixFilled
  rw [List.length_map, List.length_range]

lemma prefixFilled_getElem? (f : ℕ → TranscriptionTurn) (n m k : ℕ) :
    (prefixFilled f n m)[k]?
      = if k < n then some (if k < m then some (f k) else none) else none := by
  unfold prefixFilled
  rw [List.getElem?_map]
  rcases lt_or_ge k n with hk | hk
  · rw [List.getElem?_range hk, if_pos hk]
    rfl
  · rw [List.getElem?_eq_none (by rw [List.length_range]; omega), if_neg (not_lt.2 hk)]
    rfl

lemma prefixFilled_set (f : ℕ → TranscriptionTurn) (n m : ℕ) (hm : m < n) :
    (prefixFilled f n m).set m (some (f m)) = prefixFilled f n (m + 1) := by
  apply List.ext_getElem?
  intro k
  rw [List.getElem?_set, prefixFilled_length, prefixFilled_getElem?, prefixFilled_getElem?]
  rcases eq_or_ne m k with rfl | hne
  · rw [if_pos rfl, if_pos hm, if_pos hm, if_pos (by omega)]
  · rw [if_neg hne]
    rcases lt_or_ge k n with hk | hk
    · rw [if_pos hk, if_pos hk]
      congr 1
      by_cases hkm : k < m
      · rw [if_pos hkm, if_pos (by omega)]
      · rw [if_neg hkm, if_neg (by omega)]
    · rw [if_neg (not_lt.2 hk), if_neg (not_lt.2 hk)]

lemma setTurns_append (turns : List (Option TranscriptionTurn)) (l1 l2 : List ℕ)
    (f : ℕ → TranscriptionTurn) :
    setTurns turns (l1 ++ l2) f = setTurns (setTurns turns l1 f) l2 f := by
  unfold setTurns
  rw [List.foldl_append]

lemma setTurns_prefixFilled (f : ℕ → TranscriptionTurn) (n i : ℕ) :
    ∀ len, i + len ≤ n →
      setTurns (prefixFilled f n i) ((List.range len).map (fun k => i + k)) f
        = prefixFilled f n (i + len) := by
  intro len
  induction len with
  | zero =>
    intro _
    simp [setTurns]
  | succ len ih =>
    intro hlen
    rw [List.range_succ, List.map_append, setTurns_append, ih (by omega)]
    simp only [List.map_cons, List.map_nil]
    simp only [setTurns, List.foldl_cons, List.foldl_nil]
    rw [prefixFilled_set f n (i + len) (by omega)]
    congr 1

lemma mkTurn_mono (client : ℕ → String) (t s n : ℕ) :
    ∀ j, j < n → ∀ i, i < j →
      (mkTurn client t s i).startTime ≤ (mkTurn client t s j).startTime := by
  intro j _ i hij
  unfold mkTurn segStart
  simp only
  have hc : (i : ℚ) ≤ (j : ℚ) := by exact_mod_cast le_of_lt hij
  have hCS : (0 : ℚ) ≤ (CHUNK_SIZE_SECONDS : ℚ) := by norm_num [CHUNK_SIZE_SECONDS]
  exact mul_le_mul_of_nonneg_right hc hCS

lemma round_mono_rat {x y : ℚ} (h : x ≤ y) : round x ≤ round y := by
  rw [round_eq, round_eq]
  exact Int.floor_mono (by linarith)

lemma progressAfter_zero (n : ℕ) : progressAfter 0 n = 5 := by
  unfold progressAfter
  norm_num [round_eq]

lemma progressAfter_mono (n : ℕ) {cp cp' : ℕ} (h : cp ≤ cp') :
    progressAfter cp n ≤ progressAfter cp' n := by
  unfold progressAfter
  have harg : ((cp : ℚ) / (n : ℚ)) * 90 ≤ ((cp' : ℚ) / (n : ℚ)) * 90 := by
    rcases Nat.eq_zero_or_pos n with rfl | hn
    · simp
    · have hn' : (0 : ℚ) < (n : ℚ) := by exact_mod_cast hn
      have hcc : (cp : ℚ) ≤ (cp' : ℚ) := by exact_mod_cast h
      have hdiv : (cp : ℚ) / (n : ℚ) ≤ (cp' : ℚ) / (n : ℚ) :=
        (div_le_div_iff_of_pos_right hn').2 hcc
      nlinarith [hdiv]
  have := round_mono_rat harg
  omega

lemma progressAfter_le_95 (n : ℕ) {cp : ℕ} (h : cp ≤ n) :
    progressAfter cp n ≤ 95 := by
  unfold progressAfter
  have harg : ((cp : ℚ) / (n : ℚ)) * 90 ≤ 90 := by
    rcases Nat.eq_zero_or_pos n with rfl | hn
    · simp
    · have hn' : (0 : ℚ) < (n : ℚ) := by exact_mod_cast hn
      have hle : (cp : ℚ) ≤ (n : ℚ) := by exact_mod_cast h
      have hone : (cp : ℚ) / (n : ℚ) ≤ 1 := by
        rw [div_le_one hn']
        exact hle
      nlinarith [hone]
  have h90 : round ((90 : ℚ)) = 90 := by norm_num [round_eq]
  have := round_mono_rat harg
  omega

lemma progressAfter_ge_5 (cp n : ℕ) : 5 ≤ progressAfter cp n := by
  unfold progressAfter
  have harg : (0 : ℚ) ≤ ((cp : ℚ) / (n : ℚ)) * 90 := by positivity
  have h0 : round ((0 : ℚ)) = 0 := by norm_num [round_eq]
  have := round_mono_rat harg
  omega

lemma getLast?_cons_of_ne_nil {α : Type} (a : α) {l : List α} (h : l ≠ []) :
    (a :: l).getLast? = l.getLast? := by
  cases l with
  | nil => exact absurd rfl h
  | cons b l => rw [List.getLast?_cons_cons]

lemma runWaves_fail_run (client : ℕ → String) (σ : List ℕ → List ℕ)
    (hσ : ∀ w, List.Perm (σ w) w) (t s n j i : ℕ)
    (hfail : segmentFails (client j) = true)
    (hbefore : ∀ k, k < j → segmentFails (client k) = false)
    (hjn : j < n)
    (turns : List (Option TranscriptionTurn)) (cp : ℕ) (cur : TranscribedFile)
    (hmod : i % CONCURRENCY_LIMIT = 0) (hij : i ≤ j)
    (hturns : turns = prefixFilled (mkTurn client t s) n i)
    (hcur : cur.transcription = (List.range i).map (mkTurn client t s)) :
    ∃ bad, j ≤ bad ∧
      bad < min (CONCURRENCY_LIMIT * (j / CONCURRENCY_LIMIT) + CONCURRENCY_LIMIT) n ∧
      segmentFails (client bad) = true ∧
      (runWaves client σ t s n i turns cp cur).1.getLast?
          = some { status := .ERROR, progress := 0,
                   transcription :=
                     (List.range (CONCURRENCY_LIMIT * (j / CONCURRENCY_LIMIT))).map
                       (mkTurn client t s),
                   error := some (client bad) } ∧
      (runWaves client σ t s n i turns cp cur).2
          = List.range' i
              (min (CONCURRENCY_LIMIT * (j / CONCURRENCY_LIMIT) + CONCURRENCY_LIMIT) n - i) := by
  have hin : i < n := lt_of_le_of_lt hij hjn
  have hK : CONCURRENCY_LIMIT = 10 := rfl
  rcases lt_or_ge j (i + CONCURRENCY_LIMIT) with hjw | hjw
  · -- the first failing chunk j is in the current wave, which therefore rejects
    have hjlt : j < i + min CONCURRENCY_LIMIT (n - i) := by
      unfold CONCURRENCY_LIMIT at *
      omega
    have hjmem : j ∈ (List.range (min CONCURRENCY_LIMIT (n - i))).map (fun k => i + k) := by
      rw [List.mem_map]
      exact ⟨j - i, List.mem_range.2 (by omega), by omega⟩
    obtain ⟨bad, hfind, hbadmem, hbadfail⟩ :=
      find?_perm_fail (fun idx => segmentFails (client idx)) (hσ _) hjmem hfail
    rcases List.mem_map.1 hbadmem with ⟨k, hk, rfl⟩
    have hklt := List.mem_range.1 hk
    have hifs : i = CONCURRENCY_LIMIT * (j / CONCURRENCY_LIMIT) := by
      unfold CONCURRENCY_LIMIT at *
      omega
    have hjbad : j ≤ i + k := by
      by_contra hcon
      push_neg at hcon
      have hfls := hbefore (i + k) hcon
      rw [hfls] at hbadfail
      exact Bool.false_ne_true hbadfail
    refine ⟨i + k, hjbad, ?_, hbadfail, ?_, ?_⟩
    · unfold CONCURRENCY_LIMIT at *
      omega
    · rw [runWaves_fail_step client σ t s n i turns cp cur (i + k) hin hfind]
      dsimp only
      obtain ⟨cs, cpr, ctr, cerr⟩ := cur
      simp only at hcur
      subst hcur
      rw [← hifs]
      rfl
    · rw [runWaves_fail_step client σ t s n i turns cp cur (i + k) hin hfind]
      dsimp only
      rw [show (List.range (min CONCURRENCY_LIMIT (n - i))).map (fun k => i + k)
          = List.range' i (min CONCURRENCY_LIMIT (n - i))
        from (List.range'_eq_map_range _ _).symm]
      congr 1
      unfold CONCURRENCY_LIMIT at *
      omega
  · -- the current wave settles successfully; recurse
    have hlen : min CONCURRENCY_LIMIT (n - i) = CONCURRENCY_LIMIT := by
      unfold CONCURRENCY_LIMIT at *
      omega
    have hfind := find?_wave_none client σ i (min CONCURRENCY_LIMIT (n - i)) hσ
      (fun k hk1 hk2 => hbefore k (by unfold CONCURRENCY_LIMIT at *; omega))
    have hturns2 : setTurns turns
        ((List.range (min CONCURRENCY_LIMIT (n - i))).map (fun k => i + k))
        (mkTurn client t s)
        = prefixFilled (mkTurn client t s) n (i + CONCURRENCY_LIMIT) := by
      rw [hturns, hlen]
      exact setTurns_prefixFilled (mkTurn client t s) n i CONCURRENCY_LIMIT
        (by unfold CONCURRENCY_LIMIT at *; omega)
    have hcur2 : ({ cur with
        progress := progressAfter (cp + min CONCURRENCY_LIMIT (n - i)) n,
        transcription := aggregate (setTurns turns
          ((List.range (min CONCURRENCY_LIMIT (n - i))).map (fun k => i + k))
          (mkTurn client t s)) } : TranscribedFile).transcription
        = (List.range (i + CONCURRENCY_LIMIT)).map (mkTurn client t s) := by
      simp only
      rw [hturns2]
      exact aggregate_prefixFilled (mkTurn client t s) n (i + CONCURRENCY_LIMIT)
        (by unfold CONCURRENCY_LIMIT at *; omega) (mkTurn_mono client t s n)
    obtain ⟨bad, h1, h2, h3, h4, h5⟩ := runWaves_fail_run client σ hσ t s n j
      (i + CONCURRENCY_LIMIT) hfail hbefore hjn
      (setTurns turns ((List.range (min CONCURRENCY_LIMIT (n - i))).map (fun k => i + k))
        (mkTurn client t s))
      (cp + min CONCURRENCY_LIMIT (n - i))
      { cur with
        progress := progressAfter (cp + min CONCURRENCY_LIMIT (n - i)) n,
        transcription := aggregate (setTurns turns
          ((List.range (min CONCURRENCY_LIMIT (n - i))).map (fun k => i + k))
          (mkTurn client t s)) }
      (by unfold CONCURRENCY_LIMIT at *; omega) (by unfold CONCURRENCY_LIMIT at *; omega)
      hturns2 hcur2
    refine ⟨bad, h1, h2, h3, ?_, ?_⟩
    · rw [runWaves_succ_step client σ t s n i turns cp cur hin hfind]
      rw [getLast?_cons_of_ne_nil _
        (runWaves_fst_ne_nil client σ t s n (i + CONCURRENCY_LIMIT) _ _ _)]
      exact h4
    · rw [runWaves_succ_step client σ t s n i turns cp cur hin hfind]
      dsimp only
      rw [h5]
      rw [show (List.range (min CONCURRENCY_LIMIT (n - i))).map (fun k => i + k)
          = List.range' i (min CONCURRENCY_LIMIT (n - i))
        from (List.range'_eq_map_range _ _).symm]
      rw [hlen, hK]
      have happ := List.range'_append i 10
        (min (10 * (j / 10) + 10) n - (i + 10)) 1
      simp only [Nat.one_mul] at happ
      rw [hK] at hjw hmod
      rw [happ]
      congr 1
      omega
termination_by n - i
decreasing_by
  unfold CONCURRENCY_LIMIT
  omega

lemma prefixFilled_zero (f : ℕ → TranscriptionTurn) (n : ℕ) :
    prefixFilled f n 0 = List.replicate n none := by
  apply List.ext_getElem?
  intro k
  rw [prefixFilled_getElem?]
  rcases lt_or_ge k n with hk | hk
  · rw [if_pos hk, if_neg (Nat.not_lt_zero k), List.getElem?_replicate, if_pos hk]
  · rw [if_neg (not_lt.2 hk), List.getElem?_replicate, if_neg (not_lt.2 hk)]

/-- C4: if chunk `j` is the first chunk whose client response starts
with the `Error:` marker, then for every settle order `σ` of the waves'
requests, the job's final state is `Error` with progress reset to 0 and
the failure's description stored as its error message — the response of
the settle-order-first failing chunk of `j`'s own wave, which is exactly
`j`'s response whenever `j` is the only failing chunk of its wave; the
transcript still holds exactly the turns of the waves strictly before
`j`'s wave (not cleared); and the attempted chunks are exactly those of
the waves up to and including `j`'s wave — no later wave is attempted. -/
theorem C4_fail_fast (client : ℕ → String) (σ : List ℕ → List ℕ) (t s j : ℕ)
    (hσ : ∀ w, List.Perm (σ w) w)
    (hj : j < numChunks t s)
    (hfail : segmentFails (client j) = true)
    (hbefore : ∀ k, k < j → segmentFails (client k) = false) :
    ∃ bad, j ≤ bad ∧
      bad < min (CONCURRENCY_LIMIT * (j / CONCURRENCY_LIMIT) + CONCURRENCY_LIMIT)
        (numChunks t s) ∧
      segmentFails (client bad) = true ∧
      (processFile client σ t s).1.getLast?
          = some { status := .ERROR, progress := 0,
                   transcription :=
                     (List.range (CONCURRENCY_LIMIT * (j / CONCURRENCY_LIMIT))).map
                       (mkTurn client t s),
                   error := some (client bad) } ∧
      (processFile client σ t s).2
          = List.range
              (min (CONCURRENCY_LIMIT * (j / CONCURRENCY_LIMIT) + CONCURRENCY_LIMIT)
                (numChunks t s)) ∧
      ((∀ k, j < k →
          k < min (CONCURRENCY_LIMIT * (j / CONCURRENCY_LIMIT) + CONCURRENCY_LIMIT)
            (numChunks t s) →
          segmentFails (client k) = false) → bad = j) := by
  obtain ⟨bad, h1, h2, h3, h4, h5⟩ := runWaves_fail_run client σ hσ t s (numChunks t s)
    j 0 hfail hbefore hj (List.replicate (numChunks t s) none) 0
    { status := .TRANSCRIBING, progress := 5, transcription := [], error := none }
    (by unfold CONCURRENCY_LIMIT; omega) (by omega)
    (prefixFilled_zero (mkTurn client t s) (numChunks t s)).symm
    (by simp)
  refine ⟨bad, h1, h2, h3, ?_, ?_, ?_⟩
  · unfold processFile
    dsimp only
    rw [List.getLast?_cons_cons, List.getLast?_cons_cons,
      getLast?_cons_of_ne_nil _
        (runWaves_fst_ne_nil client σ t s (numChunks t s) 0 _ _ _)]
    exact h4
  · unfold processFile
    dsimp only
    rw [List.range_eq_range']
    rw [show (List.range' 0 (min (CONCURRENCY_LIMIT * (j / CONCURRENCY_LIMIT)
          + CONCURRENCY_LIMIT) (numChunks t s)))
      = List.range' 0 (min (CONCURRENCY_LIMIT * (j / CONCURRENCY_LIMIT)
          + CONCURRENCY_LIMIT) (numChunks t s) - 0) from by rw [Nat.sub_zero]]
    exact h5
  · intro honly
    by_contra hne
    have hlt : j < bad := lt_of_le_of_ne h1 (Ne.symm hne)
    have hfls := honly bad hlt h2
    rw [hfls] at h3
    exact Bool.false_ne_true h3

/-- Witness for C4: a 487-sample source at sample rate 1 (25 chunks)
with reversed settle order in every wave, where chunk 12 is the only
failing chunk: waves 0 and 1 are attempted, the transcript keeps wave
0's ten turns, and the job ends in `Error` with progress 0 and a failing
chunk's response as message. -/
theorem C4_fail_fast_witness :
    ∃ bad, 12 ≤ bad ∧
      bad < min (CONCURRENCY_LIMIT * (12 / CONCURRENCY_LIMIT) + CONCURRENCY_LIMIT)
        (numChunks 487 1) ∧
      segmentFails ((fun k : ℕ => if k = 12 then "Error: boom" else "ok") bad) = true ∧
      (processFile (fun k => if k = 12 then "Error: boom" else "ok")
          List.reverse 487 1).1.getLast?
          = some { status := .ERROR, progress := 0,
                   transcription :=
                     (List.range (CONCURRENCY_LIMIT * (12 / CONCURRENCY_LIMIT))).map
                       (mkTurn (fun k => if k = 12 then "Error: boom" else "ok") 487 1),
                   error := some ((fun k : ℕ =>
                     if k = 12 then "Error: boom" else "ok") bad) } ∧
      (processFile (fun k => if k = 12 then "Error: boom" else "ok")
          List.reverse 487 1).2
          = List.range
              (min (CONCURRENCY_LIMIT * (12 / CONCURRENCY_LIMIT) + CONCURRENCY_LIMIT)
                (numChunks 487 1)) ∧
      ((∀ k, 12 < k →
          k < min (CONCURRENCY_LIMIT * (12 / CONCURRENCY_LIMIT) + CONCURRENCY_LIMIT)
            (numChunks 487 1) →
          segmentFails ((fun k : ℕ => if k = 12 then "Error: boom" else "ok") k)
            = false) → bad = 12) :=
  C4_fail_fast (fun k => if k = 12 then "Error: boom" else "ok") List.reverse 487 1 12
    (fun w => List.reverse_perm w) (by decide) (by decide) (by decide)

lemma runWaves_wave_state (client : ℕ → String) (σ : List ℕ → List ℕ)
    (hσ : ∀ w, List.Perm (σ w) w) (t s n : ℕ) :
    ∀ w i turns cp cur, cp = i → i % CONCURRENCY_LIMIT = 0 →
      w < ceilDiv (n - i) CONCURRENCY_LIMIT →
      (∀ k, i ≤ k → k < min (i + CONCURRENCY_LIMIT * (w + 1)) n →
        segmentFails (client k) = false) →
      cur.status = .TRANSCRIBING →
      ∃ st, (runWaves client σ t s n i turns cp cur).1[w]? = some st ∧
        st.status = .TRANSCRIBING ∧
        st.progress = progressAfter (min (i + CONCURRENCY_LIMIT * (w + 1)) n) n := by
  intro w
  induction w with
  | zero =>
    intro i turns cp cur hcp hmod hw hsucc hst
    have hin : i < n := by
      unfold ceilDiv CONCURRENCY_LIMIT at hw
      omega
    have hfind := find?_wave_none client σ i (min CONCURRENCY_LIMIT (n - i)) hσ
      (fun k hk1 hk2 => hsucc k hk1 (by unfold CONCURRENCY_LIMIT at *; omega))
    rw [runWaves_succ_step client σ t s n i turns cp cur hin hfind]
    refine ⟨{ cur with
        progress := progressAfter (cp + min CONCURRENCY_LIMIT (n - i)) n,
        transcription := aggregate (setTurns turns
          ((List.range (min CONCURRENCY_LIMIT (n - i))).map (fun k => i + k))
          (mkTurn client t s)) }, List.getElem?_cons_zero, hst, ?_⟩
    dsimp only
    subst hcp
    congr 1
    unfold CONCURRENCY_LIMIT
    omega
  | succ w ih =>
    intro i turns cp cur hcp hmod hw hsucc hst
    have hin : i < n := by
      unfold ceilDiv CONCURRENCY_LIMIT at hw
      omega
    have hi10 : i + CONCURRENCY_LIMIT < n := by
      unfold ceilDiv at hw
      unfold CONCURRENCY_LIMIT at hw ⊢
      omega
    have hfind := find?_wave_none client σ i (min CONCURRENCY_LIMIT (n - i)) hσ
      (fun k hk1 hk2 => hsucc k hk1 (by unfold CONCURRENCY_LIMIT at *; omega))
    rw [runWaves_succ_step client σ t s n i turns cp cur hin hfind]
    rw [List.getElem?_cons_succ]
    have hlen : min CONCURRENCY_LIMIT (n - i) = CONCURRENCY_LIMIT := by
      unfold CONCURRENCY_LIMIT at *
      omega
    obtain ⟨st, h1, h2, h3⟩ := ih (i + CONCURRENCY_LIMIT)
      (setTurns turns ((List.range (min CONCURRENCY_LIMIT (n - i))).map (fun k => i + k))
        (mkTurn client t s))
      (cp + min CONCURRENCY_LIMIT (n - i))
      { cur with
        progress := progressAfter (cp + min CONCURRENCY_LIMIT (n - i)) n,
        transcription := aggregate (setTurns turns
          ((List.range (min CONCURRENCY_LIMIT (n - i))).map (fun k => i + k))
          (mkTurn client t s)) }
      (by rw [hcp, hlen]) (by unfold CONCURRENCY_LIMIT at *; omega)
      (by unfold ceilDiv CONCURRENCY_LIMIT at hw ⊢; omega)
      (fun k hk1 hk2 => hsucc k (by unfold CONCURRENCY_LIMIT at *; omega)
        (by unfold CONCURRENCY_LIMIT at *; omega))
      hst
    refine ⟨st, h1, h2, ?_⟩
    rw [h3]
    congr 1
    unfold CONCURRENCY_LIMIT
    omega

/-- C5: after each completed wave `w` (0-indexed) the job's progress is
set to exactly `5 + round(90 × chunksProcessed / totalChunks)`, where
`chunksProcessed = min(10·(w+1), totalChunks)` counts every chunk of the
completed waves `0 … w`. -/
theorem C5_progress_formula (client : ℕ → String) (σ : List ℕ → List ℕ) (t s w : ℕ)
    (hσ : ∀ v, List.Perm (σ v) v)
    (hw : w < ceilDiv (numChunks t s) CONCURRENCY_LIMIT)
    (hsucc : ∀ k, k < min (CONCURRENCY_LIMIT * (w + 1)) (numChunks t s) →
      segmentFails (client k) = false) :
    ∃ st, (processFile client σ t s).1[w + 3]? = some st ∧
      st.status = .TRANSCRIBING ∧
      st.progress = 5 + round ((90 : ℚ) *
        ((min (CONCURRENCY_LIMIT * (w + 1)) (numChunks t s) : ℕ) : ℚ)
          / (numChunks t s : ℚ)) := by
  obtain ⟨st, h1, h2, h3⟩ := runWaves_wave_state client σ hσ t s (numChunks t s) w 0
    (List.replicate (numChunks t s) none) 0
    { status := .TRANSCRIBING, progress := 5, transcription := [], error := none }
    rfl (by unfold CONCURRENCY_LIMIT; omega)
    (by rwa [Nat.sub_zero])
    (fun k _ hk2 => hsucc k (by rwa [Nat.zero_add] at hk2))
    rfl
  refine ⟨st, ?_, h2, ?_⟩
  · unfold processFile
    dsimp only
    rw [show w + 3 = w + 1 + 1 + 1 from rfl]
    rw [List.getElem?_cons_succ, List.getElem?_cons_succ, List.getElem?_cons_succ]
    exact h1
  · rw [Nat.zero_add] at h3
    rw [h3]
    unfold progressAfter
    congr 2
    ring

/-- Witness for C5: all chunks succeed on a 487-sample source at sample
rate 1 (25 chunks); after wave 1, twenty chunks are processed. -/
theorem C5_progress_formula_witness :
    ∃ st, (processFile (fun _ => "ok") List.reverse 487 1).1[1 + 3]? = some st ∧
      st.status = .TRANSCRIBING ∧
      st.progress = 5 + round ((90 : ℚ) *
        ((min (CONCURRENCY_LIMIT * (1 + 1)) (numChunks 487 1) : ℕ) : ℚ)
          / (numChunks 487 1 : ℚ)) :=
  C5_progress_formula (fun _ => "ok") List.reverse 487 1 1
    (fun v => List.reverse_perm v) (by decide) (by decide)

lemma runWaves_chain (client : ℕ → String) (σ : List ℕ → List ℕ) (t s n i : ℕ)
    (turns : List (Option TranscriptionTurn)) (cp : ℕ) (cur : TranscribedFile)
    (hcp : cp = i) (hin : i ≤ n)
    (hp : cur.progress ≤ progressAfter i n)
    (hst : cur.status = .TRANSCRIBING) :
    List.Chain (· ≤ ·) cur.progress
      (((runWaves client σ t s n i turns cp cur).1.filter
          (fun st => decide (st.status = .TRANSCRIBING))).map TranscribedFile.progress) := by
  by_cases h : i < n
  · cases hfind : (σ ((List.range (min CONCURRENCY_LIMIT (n - i))).map (fun k => i + k))).find?
        (fun idx => segmentFails (client idx)) with
    | some bad =>
      rw [runWaves_fail_step client σ t s n i turns cp cur bad h hfind]
      simp
    | none =>
      rw [runWaves_succ_step client σ t s n i turns cp cur h hfind]
      rw [List.filter_cons]
      rw [if_pos (by simp [hst])]
      rw [List.map_cons]
      rw [List.chain_cons]
      constructor
      · dsimp only
        rw [hcp]
        exact le_trans hp (progressAfter_mono n (Nat.le_add_right i _))
      · rcases le_or_lt (i + CONCURRENCY_LIMIT) n with h10 | h10
        · have hmin : min CONCURRENCY_LIMIT (n - i) = CONCURRENCY_LIMIT := by
            unfold CONCURRENCY_LIMIT at *
            omega
          exact runWaves_chain client σ t s n (i + CONCURRENCY_LIMIT) _ _ _
            (by rw [hcp, hmin]) h10
            (le_of_eq (by dsimp only; rw [hcp, hmin])) hst
        · rw [runWaves_stop client σ t s n (i + CONCURRENCY_LIMIT) _ _ _ (by omega)]
          simp
  · rw [runWaves_stop client σ t s n i turns cp cur h]
    simp
termination_by n - i
decreasing_by
  unfold CONCURRENCY_LIMIT
  omega

lemma runWaves_mem_states (client : ℕ → String) (σ : List ℕ → List ℕ) (t s n i : ℕ)
    (turns : List (Option TranscriptionTurn)) (cp : ℕ) (cur : TranscribedFile)
    (hcp : cp = i) (hin : i ≤ n) :
    ∀ st ∈ (runWaves client σ t s n i turns cp cur).1,
      (st.status = .DONE ∧ st.progress = 100) ∨
      (st.status = .ERROR ∧ st.progress = 0) ∨
      (∃ m, m ≤ n ∧ st.progress = progressAfter m n) := by
  by_cases h : i < n
  · cases hfind : (σ ((List.range (min CONCURRENCY_LIMIT (n - i))).map (fun k => i + k))).find?
        (fun idx => segmentFails (client idx)) with
    | some bad =>
      rw [runWaves_fail_step client σ t s n i turns cp cur bad h hfind]
      intro st hstm
      rw [List.mem_singleton] at hstm
      subst hstm
      right
      left
      exact ⟨rfl, rfl⟩
    | none =>
      rw [runWaves_succ_step client σ t s n i turns cp cur h hfind]
      intro st hstm
      rcases List.mem_cons.1 hstm with rfl | hmem
      · right
        right
        refine ⟨cp + min CONCURRENCY_LIMIT (n - i), ?_, rfl⟩
        have := min_le_right CONCURRENCY_LIMIT (n - i)
        omega
      · rcases le_or_lt (i + CONCURRENCY_LIMIT) n with h10 | h10
        · have hmin : min CONCURRENCY_LIMIT (n - i) = CONCURRENCY_LIMIT := by
            unfold CONCURRENCY_LIMIT at *
            omega
          exact runWaves_mem_states client σ t s n (i + CONCURRENCY_LIMIT) _ _ _
            (by rw [hcp, hmin]) h10 st hmem
        · rw [runWaves_stop client σ t s n (i + CONCURRENCY_LIMIT) _ _ _ (by omega)] at hmem
          rw [List.mem_singleton] at hmem
          subst hmem
          left
          exact ⟨rfl, rfl⟩
  · rw [runWaves_stop client σ t s n i turns cp cur h]
    intro st hstm
    rw [List.mem_singleton] at hstm
    subst hstm
    left
    exact ⟨rfl, rfl⟩
termination_by n - i
decreasing_by
  unfold CONCURRENCY_LIMIT
  omega

/-- C6: along any execution of `processFile` (any client responses,
failing or not), the progress values of the states whose status is
`Transcribing` form a non-decreasing sequence, and a progress of 100 is
only ever reported together with the `Done` status. -/
theorem C6_progress_monotonicity (client : ℕ → String) (σ : List ℕ → List ℕ)
    (t s : ℕ) :
    List.Chain' (· ≤ ·)
      (((processFile client σ t s).1.filter
          (fun st => decide (st.status = .TRANSCRIBING))).map TranscribedFile.progress) ∧
    (∀ st ∈ (processFile client σ t s).1, st.progress = 100 → st.status = .DONE) := by
  constructor
  · unfold processFile
    dsimp only
    rw [List.filter_cons, List.filter_cons, List.filter_cons]
    rw [if_neg (by decide), if_neg (by decide), if_pos (by decide)]
    rw [List.map_cons]
    show List.Chain (· ≤ ·) (5 : ℤ) _
    have := runWaves_chain client σ t s (numChunks t s) 0
      (List.replicate (numChunks t s) none) 0
      { status := .TRANSCRIBING, progress := 5, transcription := [], error := none }
      rfl (Nat.zero_le _)
      (le_of_eq (progressAfter_zero (numChunks t s)).symm) rfl
    exact this
  · intro st hstm h100
    unfold processFile at hstm
    dsimp only at hstm
    rcases List.mem_cons.1 hstm with rfl | hstm
    · exact absurd h100 (by decide)
    rcases List.mem_cons.1 hstm with rfl | hstm
    · exact absurd h100 (by decide)
    rcases List.mem_cons.1 hstm with rfl | hstm
    · exact absurd h100 (by decide)
    rcases runWaves_mem_states client σ t s (numChunks t s) 0
        (List.replicate (numChunks t s) none) 0
        { status := .TRANSCRIBING, progress := 5, transcription := [], error := none }
        rfl (Nat.zero_le _) st hstm with hdone | herr | ⟨m, hm, hpr⟩
    · exact hdone.1
    · rw [herr.2] at h100
      exact absurd h100 (by decide)
    · have := progressAfter_le_95 (numChunks t s) hm
      rw [hpr] at h100
      omega

/-- C10: `transcribeAudio` is total over its error channel: a thrown
error is caught and becomes an `Error:`-prefixed string carrying the
failure description; a successful call returns the response text, or
the empty string when the response has none.  Consequently the
pipeline's only failure detection is the `Error:` string prefix, and a
genuine transcript that itself starts with `Error:` is classified as a
segment failure. -/
theorem C10_client_error_channel :
    (∀ msg : String,
      transcribeAudio (.errKnown msg) = "Error: API call failed - " ++ msg ∧
      segmentFails (transcribeAudio (.errKnown msg)) = true) ∧
    (transcribeAudio .errUnknown
        = "Error: An unknown error occurred during transcription." ∧
      segmentFails (transcribeAudio .errUnknown) = true) ∧
    (∀ text : String, transcribeAudio (.ok (some text)) = text) ∧
    (transcribeAudio (.ok none) = "") ∧
    (∀ text : String, jsStartsWith text ("Error:") = true →
      segmentFails (transcribeAudio (.ok (some text))) = true) := by
  refine ⟨?_, ⟨rfl, by decide⟩, fun _ => rfl, rfl, fun _ h => h⟩
  intro msg
  refine ⟨rfl, ?_⟩
  show segmentFails ("Error: API call failed - " ++ msg) = true
  unfold segmentFails jsStartsWith
  rw [ List.isPrefixOf_iff_prefix, String.data_append]
  exact (show ("Error:".data <+: "Error: API call failed - ".data) by decide).trans
    (List.prefix_append _ _)

/-- Witness for C10: a known thrown error yields the prefixed message,
and a genuine transcript that begins with `Error:` is classified as a
segment failure. -/
theorem C10_client_error_channel_witness :
    (transcribeAudio (.errKnown ("network down"))
        = "Error: API call failed - " ++ "network down") ∧
    segmentFails (transcribeAudio
      (.ok (some ("Error: prone systems are hard to use")))) = true :=
  ⟨(C10_client_error_channel.1 ("network down")).1,
    C10_client_error_channel.2.2.2.2 ("Error: prone systems are hard to use") (by decide)⟩

/-- C7: receiving `turn-complete` with no active turn, or with a
whitespace-only accumulated text, finalizes nothing; with a
non-whitespace accumulated text it appends exactly one finalized turn
with `endTime = (now − sessionStart)/1000`, and that turn satisfies
`endTime ≥ startTime` whenever the clock is monotone (the turn started
no later than `now`); in every case the active turn is reset to none. -/
theorem C7_turn_complete_finalization (now : ℚ) (st : LiveSessionState) :
    ((handleTurnComplete now st).currentTurn = none) ∧
    (st.currentTurn = none →
      handleTurnComplete now st = { st with currentTurn := none }) ∧
    (∀ c, st.currentTurn = some c → jsTrim c.text = "" →
      handleTurnComplete now st = { st with currentTurn := none }) ∧
    (∀ c r, st.currentTurn = some c → jsTrim c.text ≠ "" →
      st.recordingStartTime = some r →
      (handleTurnComplete now st
          = { st with
                transcript := st.transcript
                  ++ [{ startTime := c.startTime, endTime := (now - r) / 1000,
                        text := c.text }],
                currentTurn := none }) ∧
      (c.startTime ≤ (now - r) / 1000 →
        ∃ turn, (handleTurnComplete now st).transcript = st.transcript ++ [turn] ∧
          turn.startTime ≤ turn.endTime ∧ turn.endTime = (now - r) / 1000)) := by
  refine ⟨?_, ?_, ?_, ?_⟩
  · unfold handleTurnComplete
    cases hct : st.currentTurn with
    | none => rfl
    | some c =>
      dsimp only
      by_cases h : jsTrim c.text ≠ ""
      · rw [if_pos h]
      · rw [if_neg h]
  · intro h
    unfold handleTurnComplete
    rw [h]
  · intro c hc hempty
    unfold handleTurnComplete
    rw [hc]
    dsimp only
    rw [if_neg (not_not_intro hempty)]
  · intro c r hc hne hr
    have hmain : handleTurnComplete now st
        = { st with
              transcript := st.transcript
                ++ [{ startTime := c.startTime, endTime := (now - r) / 1000,
                      text := c.text }],
              currentTurn := none } := by
      unfold handleTurnComplete
      rw [hc]
      dsimp only
      rw [if_pos hne, hr]
      rfl
    refine ⟨hmain, fun hclock => ?_⟩
    refine ⟨{ startTime := c.startTime, endTime := (now - r) / 1000, text := c.text },
      ?_, hclock, rfl⟩
    rw [hmain]

/-- Witness for C7, for a session started at 500 ms with active turn
`"hello"` begun 1 s in, receiving `turn-complete` at 2500 ms. -/
theorem C7_turn_complete_finalization_witness :
    (((handleTurnComplete 2500
        ⟨true, [], some ⟨1, "hello"⟩, true, true, some true, some true, true, true,
          some 500⟩).currentTurn = none)) ∧
    ((⟨true, [], some ⟨1, "hello"⟩, true, true, some true, some true, true, true,
        some 500⟩ : LiveSessionState).currentTurn = some ⟨1, "hello"⟩ ∧
      jsTrim (CurrentTurn.mk 1 ("hello")).text ≠ "" ∧
      (⟨true, [], some ⟨1, "hello"⟩, true, true, some true, some true, true, true,
        some 500⟩ : LiveSessionState).recordingStartTime = some 500) ∧
    (handleTurnComplete 2500
        ⟨true, [], some ⟨1, "hello"⟩, true, true, some true, some true, true, true,
          some 500⟩
      = { (⟨true, [], some ⟨1, "hello"⟩, true, true, some true, some true, true, true,
            some 500⟩ : LiveSessionState) with
          transcript := ([] : List TranscriptionTurn)
            ++ [{ startTime := (⟨1, "hello"⟩ : CurrentTurn).startTime,
                  endTime := ((2500 : ℚ) - 500) / 1000,
                  text := (⟨1, "hello"⟩ : CurrentTurn).text }],
          currentTurn := none }) ∧
    (∃ turn, (handleTurnComplete 2500
        ⟨true, [], some ⟨1, "hello"⟩, true, true, some true, some true, true, true,
          some 500⟩).transcript = ([] : List TranscriptionTurn) ++ [turn] ∧
      turn.startTime ≤ turn.endTime ∧ turn.endTime = ((2500 : ℚ) - 500) / 1000) := by
  have h := (C7_turn_complete_finalization 2500
    ⟨true, [], some ⟨1, "hello"⟩, true, true, some true, some true, true, true,
      some 500⟩).2.2.2 ⟨1, "hello"⟩ 500 rfl (by decide) rfl
  exact ⟨(C7_turn_complete_finalization 2500 _).1, ⟨rfl, by decide, rfl⟩, h.1,
    h.2 (by norm_num)⟩

/-- C8: stopping a live session with a non-whitespace in-progress turn
and a usable (non-null, non-zero) start reference appends that turn to
the finalized list with `endTime = (now − start)/1000`, clears the
active turn and the start reference, stops recording, and releases the
stream, processor, open audio contexts and session channel. -/
theorem C8_stop_finalizes_turn (now : ℚ) (st : LiveSessionState) (c : CurrentTurn)
    (r : ℚ) (hc : st.currentTurn = some c) (htext : jsTrim c.text ≠ "")
    (hr : st.recordingStartTime = some r) (hr0 : r ≠ 0) :
    stopRecording now st
      = { isRecording := false,
          transcript := st.transcript
            ++ [{ startTime := c.startTime, endTime := (now - r) / 1000,
                  text := c.text }],
          currentTurn := none,
          stream := false,
          scriptProcessor := false,
          audioContext := match st.audioContext with
            | some true => none
            | other => other,
          outputAudioContext := match st.outputAudioContext with
            | some true => none
            | other => other,
          outputGainNode := match st.outputAudioContext with
            | some true => false
            | _ => st.outputGainNode,
          session := false,
          recordingStartTime := none } := by
  obtain ⟨rec, tr, ct, sm, sp, ac, oac, og, se, rst⟩ := st
  simp only at hc hr
  subst hc hr
  cases sm <;> cases sp <;> cases se <;>
    rcases ac with _ | af <;> (try cases af) <;>
    rcases oac with _ | bf <;> (try cases bf) <;>
    simp [stopRecording, htext, hr0]

/-- Witness for C8: a fully live session stopped at 1500 ms, with start
reference 500 ms and active turn `"hi"`. -/
theorem C8_stop_finalizes_turn_witness :
    stopRecording 1500
      ⟨true, [], some ⟨2, "hi"⟩, true, true, some true, some true, true, true, some 500⟩
      = { isRecording := false,
          transcript := ([] : List TranscriptionTurn)
            ++ [{ startTime := (⟨2, "hi"⟩ : CurrentTurn).startTime,
                  endTime := ((1500 : ℚ) - 500) / 1000,
                  text := (⟨2, "hi"⟩ : CurrentTurn).text }],
          currentTurn := none,
          stream := false,
          scriptProcessor := false,
          audioContext := match (some true : Option Bool) with
            | some true => none
            | other => other,
          outputAudioContext := match (some true : Option Bool) with
            | some true => none
            | other => other,
          outputGainNode := match (some true : Option Bool) with
            | some true => false
            | _ => true,
          session := false,
          recordingStartTime := none } :=
  C8_stop_finalizes_turn 1500
    ⟨true, [], some ⟨2, "hi"⟩, true, true, some true, some true, true, true, some 500⟩
    ⟨2, "hi"⟩ 500 rfl (by decide) rfl (by decide)

/-- C9: calling `stopRecording` on an already fully stopped session is a
no-op: the transcript, the active turn and every resource field are
unchanged. -/
theorem C9_stop_idempotent (now : ℚ) (st : LiveSessionState)
    (h : StoppedSession st) :
    stopRecording now st = st := by
  obtain ⟨rec, tr, ct, sm, sp, ac, oac, og, se, rst⟩ := st
  obtain ⟨h1, h2, h3, h4, h5, h6, h7, h8, h9⟩ := h
  simp only at h1 h2 h3 h4 h5 h6 h7 h8 h9
  subst h1 h2 h3 h4 h5 h6 h7 h8 h9
  rfl

/-- Witness for C9: stopping an already stopped session (with a
non-empty finalized transcript) changes nothing. -/
theorem C9_stop_idempotent_witness :
    stopRecording 9000
      ⟨false, [⟨0, 2, "earlier turn"⟩], none, false, false, none, none, false, false,
        none⟩
      = ⟨false, [⟨0, 2, "earlier turn"⟩], none, false, false, none, none, false, false,
        none⟩ :=
  C9_stop_idempotent 9000 _ (by decide)

end Transcuraboo
